import Mathlib

/-!
Verification development for the zegion Markdown-to-Notion converter and
chunked publisher (src/zegion/writer/notion.py), as a shallow embedding:
strings are lists of characters, the regular expressions of the source are
modelled by explicit executable scanners with the same matching semantics
(leftmost match, lazy bodies with backtracking, alternation preferring the
first alternative), and the Notion client is an oracle environment whose
create/append responses drive the publisher.
-/

set_option maxRecDepth 20000

namespace Zegion

/-- Decidable equality for `Except`, needed to evaluate the model's results
in closed theorems. -/
instance {e a : Type} [DecidableEq e] [DecidableEq a] : DecidableEq (Except e a) := fun x y =>
  match x, y with
  | Except.ok v, Except.ok w =>
    if h : v = w then Decidable.isTrue (by rw [h])
    else Decidable.isFalse (fun he => h (Except.ok.inj he))
  | Except.error v, Except.error w =>
    if h : v = w then Decidable.isTrue (by rw [h])
    else Decidable.isFalse (fun he => h (Except.error.inj he))
  | Except.ok _, Except.error _ => Decidable.isFalse (fun he => Except.noConfusion he)
  | Except.error _, Except.ok _ => Decidable.isFalse (fun he => Except.noConfusion he)

/-! ### Character classes and basic string helpers (Python semantics) -/

/-- Python whitespace (`str.strip`, `\s` of `re`), ASCII fragment. -/
def isPySpaceChar (c : Char) : Bool :=
  c == ' ' || c == '\t' || c == '\n' || c == '\r' || c == '\x0b' || c == '\x0c'

/-- The `.` of a Python regex without `re.DOTALL`: any character except newline. -/
def pyDotChar (c : Char) : Bool := !(c == '\n')

/-- The `\w` class of a Python regex, ASCII fragment. -/
def pyWordChar (c : Char) : Bool := c.isAlphanum || c == '_'

/-- Python `str.strip()`: drop leading and trailing whitespace. -/
def pyStrip (l : List Char) : List Char :=
  ((l.dropWhile isPySpaceChar).reverse.dropWhile isPySpaceChar).reverse

/-- Python `str.split(sep)` for a one-character separator. -/
def splitOnChar (sep : Char) : List Char → List (List Char)
  | [] => [[]]
  | c :: r =>
    if c == sep then [] :: splitOnChar sep r
    else
      match splitOnChar sep r with
      | [] => [[c]]
      | l :: ls => (c :: l) :: ls

/-- Python `sep.join(parts)`. -/
def joinSep (sep : List Char) : List (List Char) → List Char
  | [] => []
  | [x] => x
  | x :: xs => x ++ sep ++ joinSep sep xs

/-- Python `str.replace(pat, "")`: remove all (leftmost, non-overlapping)
occurrences of `pat`; fuelled scan. -/
def removeAllAux (pat : List Char) : Nat → List Char → List Char
  | 0, s => s
  | fuel + 1, s =>
    if pat.isPrefixOf s && !pat.isEmpty then removeAllAux pat fuel (s.drop pat.length)
    else
      match s with
      | [] => []
      | c :: r => c :: removeAllAux pat fuel r

/-- Python `str.replace(pat, "")`. -/
def pyRemoveAll (pat s : List Char) : List Char := removeAllAux pat (s.length + 1) s

/-! ### Python `int()` on strings -/

/-- Digit-run parser after the first digit: digits, with single underscores
allowed only between digits (Python integer-literal rule). -/
def pyDigitsAux : Nat → List Char → Option Nat
  | acc, [] => some acc
  | acc, c :: r =>
    if c.isDigit then pyDigitsAux (10 * acc + (c.toNat - 48)) r
    else if c == '_' then
      match r with
      | [] => none
      | d :: r2 => if d.isDigit then pyDigitsAux (10 * acc + (d.toNat - 48)) r2 else none
    else none

/-- A non-empty digit run (underscore-separated) and its value. -/
def pyDigits : List Char → Option Nat
  | [] => none
  | c :: r => if c.isDigit then pyDigitsAux (c.toNat - 48) r else none

/-- Python `int(s)`: strip whitespace, optional sign, digit run; `none` models
the `ValueError` that `int` raises on anything else. -/
def pyInt (s : List Char) : Option Int :=
  match pyStrip s with
  | '+' :: ds => (pyDigits ds).map (fun n => (n : Int))
  | '-' :: ds => (pyDigits ds).map (fun n => -(n : Int))
  | ds => (pyDigits ds).map (fun n => (n : Int))

/-- Python `dict.get` for a table keyed by consecutive integers `0, 1, ...`,
accessed with a possibly negative index. -/
def lookupIdx {α : Type} (l : List α) (i : Int) : Option α :=
  if i < 0 then none else l.get? i.toNat

/-! ### Data model: rich text spans and blocks -/

/-- The Notion text annotation set carried by inline spans. -/
structure AnnotationSet where
  bold : Bool
  italic : Bool
  strikethrough : Bool
  underline : Bool
  code : Bool
  color : List Char
deriving DecidableEq, Repr

/-- A Notion rich text object: content, optional link URL, and the annotation
set (absent on the bare text objects built for code blocks and captions). -/
structure RichText where
  content : List Char
  link : Option (List Char)
  annotations : Option AnnotationSet
deriving DecidableEq, Repr

/-- The default (all-false) annotation set used for residual plain text. -/
def defaultAnnSet : AnnotationSet :=
  ⟨false, false, false, false, false, "default".data⟩

/-- A bare text object without an annotations field (code blocks, captions). -/
def plainRichText (cs : List Char) : RichText := ⟨cs, none, none⟩

/-- One Notion block as produced by the converter. -/
inductive Block where
  | heading (level : Nat) (spans : List RichText)
  | paragraph (spans : List RichText)
  | quote (spans : List RichText)
  | divider
  | code (language : List Char) (richText : List RichText)
  | equation (expression : List Char)
  | image (url : List Char) (caption : Option (List RichText))
deriving DecidableEq, Repr

/-! ### Lazy regex fragments

`lazyFrom p close s` models `(.*?)close` with character class `p`: it tries
the shortest body first, returning the body and the rest after `close`.
`lazyPlus` models `(.+?)close` (body of at least one character). -/

def lazyFrom (p : Char → Bool) (close : List Char) : List Char → Option (List Char × List Char)
  | [] => if close.isPrefixOf ([] : List Char) then some ([], []) else none
  | c :: rest =>
    if close.isPrefixOf (c :: rest) then some ([], (c :: rest).drop close.length)
    else if p c then (lazyFrom p close rest).map (fun br => (c :: br.1, br.2))
    else none

def lazyPlus (p : Char → Bool) (close : List Char) : List Char → Option (List Char × List Char)
  | [] => none
  | c :: rest =>
    if p c then (lazyFrom p close rest).map (fun br => (c :: br.1, br.2))
    else none

/-! ### Inline formatter (`NotionMarkdownConverter.inline_plugins`) -/

/-- One alternative `open(.+?)close` of a `GenericInlinePlugin` pattern. -/
structure DelimRule where
  dopen : List Char
  dclose : List Char
deriving DecidableEq, Repr

/-- Match one delimiter alternative at the start of `s`. -/
def delimMatch (rule : DelimRule) (s : List Char) : Option (List Char × List Char) :=
  if rule.dopen.isPrefixOf s then lazyPlus pyDotChar rule.dclose (s.drop rule.dopen.length)
  else none

/-- Alternation `(A)|(B)`: the first alternative that matches at this
position wins; the extracted content is the matched alternative's group
(the `content_groups=(2, 4)` rule of the source). -/
def firstAltMatch (alts : List DelimRule) (s : List Char) : Option (List Char × List Char) :=
  match alts with
  | [] => none
  | r :: rs =>
    match delimMatch r s with
    | some v => some v
    | none => firstAltMatch rs s

/-- The body search for `\[(.+?)\]\((.+?)\)` after the opening `[`: lazy
first body (at least one character) with backtracking into the second lazy
body, per Python backtracking semantics. -/
def linkBody : List Char → Option (List Char × List Char × List Char)
  | [] => none
  | c :: rest =>
    if pyDotChar c then
      match
        (if ("](".data).isPrefixOf rest then
          (lazyPlus pyDotChar (")".data) (rest.drop 2)).map
            (fun br => (([c] : List Char), br.1, br.2))
        else none) with
      | some v => some v
      | none => (linkBody rest).map (fun v => (c :: v.1, v.2.1, v.2.2))
    else none

/-- A plugin of the ordered `inline_plugins` list of the source. -/
inductive InlinePlugin where
  | generic (alts : List DelimRule) (annotationSet : AnnotationSet)
  | link
deriving Repr

/-- What a plugin's `replace` builds from a match at the head of `s`,
together with the rest of the input after the match. -/
def pluginMatch : InlinePlugin → List Char → Option (RichText × List Char)
  | .generic alts ann, s =>
    (firstAltMatch alts s).map (fun br => (⟨br.1, none, some ann⟩, br.2))
  | .link, s =>
    match s with
    | [] => none
    | c :: rest =>
      if c == '[' then
        (linkBody rest).map (fun v => (⟨v.1, some v.2.1, some defaultAnnSet⟩, v.2.2))
      else none

/-- A fragment of a partially processed line: plain text not yet consumed by
any plugin, or an already-built rich text object. -/
inductive Part where
  | plain (cs : List Char)
  | span (r : RichText)
deriving DecidableEq, Repr

/-- The `re.finditer` loop of `_replace_part` over one string fragment:
gaps between matches are kept as (non-empty) plain parts, every match
becomes a span, and the final remainder is always appended (also when
empty), exactly as the source does. -/
def scanFragAux (m : List Char → Option (RichText × List Char)) :
    Nat → List Char → List Char → List Part
  | 0, gap, s => [Part.plain (gap.reverse ++ s)]
  | fuel + 1, gap, s =>
    match m s with
    | some tr =>
      (if gap.isEmpty then [] else [Part.plain gap.reverse]) ++
        (Part.span tr.1 :: scanFragAux m fuel [] tr.2)
    | none =>
      match s with
      | [] => [Part.plain gap.reverse]
      | c :: rest => scanFragAux m fuel (c :: gap) rest

def scanFrag (m : List Char → Option (RichText × List Char)) (s : List Char) : List Part :=
  scanFragAux m (s.length + 1) [] s

/-- `NotionMarkdownConverter._replace_part`: process plain parts with the
plugin's pattern, leave spans untouched. -/
def replace_part (plugin : InlinePlugin) (parts : List Part) : List Part :=
  (parts.map fun part =>
    match part with
    | .plain cs => scanFrag (pluginMatch plugin) cs
    | .span r => [Part.span r]).flatten

/-- The ordered plugin list of `NotionMarkdownConverter.inline_plugins`. -/
def inline_plugins : List InlinePlugin :=
  [ .generic [⟨"__*".data, "*__".data⟩, ⟨"**_".data, "_**".data⟩]
      ⟨true, true, false, false, false, "default".data⟩,
    .generic [⟨"**".data, "**".data⟩, ⟨"__".data, "__".data⟩]
      ⟨true, false, false, false, true, "default".data⟩,
    .generic [⟨"**".data, "**".data⟩, ⟨"__".data, "__".data⟩]
      ⟨true, false, false, false, false, "default".data⟩,
    .generic [⟨"*".data, "*".data⟩, ⟨"_".data, "_".data⟩]
      ⟨false, true, false, false, false, "default".data⟩,
    .generic [⟨"`".data, "`".data⟩]
      ⟨false, false, false, false, true, "default".data⟩,
    .link ]

/-- `NotionMarkdownConverter.process_inline_formatting`. -/
def process_inline_formatting (text : List Char) : List RichText :=
  let parts := inline_plugins.foldl (fun ps p => replace_part p ps) [Part.plain text]
  parts.filterMap fun part =>
    match part with
    | .plain cs => if cs.isEmpty then none else some ⟨cs, none, some defaultAnnSet⟩
    | .span r => some r

/-! ### Table-to-equation transliterator -/

/-- Cells of one table row: `re.findall(r"(?<=\|)(.*?)(?=\|)", row)`, i.e.
the pieces strictly between consecutive pipes. -/
def cellsOf (row : List Char) : List (List Char) :=
  ((splitOnChar '|' row).drop 1).dropLast

/-- Whether the regex `\|\s*-+\s*\|` matches at the start of the line
(a prefix match: anything may follow the second pipe). -/
def divMatch (l : List Char) : Bool :=
  match l with
  | [] => false
  | c :: rest =>
    c == '|' &&
      (let r1 := rest.dropWhile isPySpaceChar
       let ds := r1.takeWhile (fun d => d == '-')
       !ds.isEmpty &&
         (match (r1.drop ds.length).dropWhile isPySpaceChar with
          | '|' :: _ => true
          | _ => false))

/-- Drop the second line when the header-divider regex matches it
(`lines.pop(1)` of the source). -/
def dropDivider (lines : List (List Char)) : List (List Char) :=
  match lines with
  | l0 :: l1 :: rest => if divMatch l1 then l0 :: rest else l0 :: l1 :: rest
  | other => other

/-- One cell wrapped as in the source: `\textsf{<stripped cell>}`. -/
def fmtCell (cell : List Char) : List Char :=
  "\\textsf\x7b".data ++ pyStrip cell ++ "\x7d".data

/-- One table row rendered: cells joined with `" & "`, then the row
terminator `" \\\hline\n"` (three backslashes then `hline`). -/
def fmtRow (row : List Char) : List Char :=
  joinSep (" & ".data) ((cellsOf row).map fmtCell) ++ (" \\\\\\hline\n".data)

/-- The `cells` variable after the row loop: cells of the last processed
row, empty when there were no rows. -/
def lastCellCount (lines : List (List Char)) : Nat :=
  (lines.foldl (fun _ r => cellsOf r) ([] : List (List Char))).length

/-- `NotionMarkdownConverter.convert_markdown_table_to_latex`. -/
def convert_markdown_table_to_latex (text : List Char) : List Char :=
  let processed := dropDivider (splitOnChar '\n' text)
  let tableContent := (processed.map fmtRow).flatten
  let columns := lastCellCount processed
  let tableColumn := (List.replicate columns ("|c".data)).flatten ++ ("|".data)
  ("\\def\\arraystretch\x7b1.4\x7d\\begin\x7barray\x7d\x7b".data) ++ tableColumn ++
    ("\x7d\\hline\n".data) ++ tableContent ++ ("\\end\x7barray\x7d".data)

/-! ### Pre-passes: fenced code and `$$` math extraction -/

/-- Match of ```` ```(\w+)?\n(.*?)``` ```` (DOTALL) at the start of `s`:
optional language word, a newline, then the lazy body up to the closing
fence. Returns (language?, body, rest). -/
def code_fence_match (s : List Char) :
    Option ((Option (List Char)) × List Char × List Char) :=
  if ("```".data).isPrefixOf s then
    let s1 := s.drop 3
    let lang := s1.takeWhile pyWordChar
    if lang.isEmpty then
      match s1 with
      | '\n' :: s2 => (lazyFrom (fun _ => true) ("```".data) s2).map (fun br => (none, br.1, br.2))
      | _ => none
    else
      match s1.drop lang.length with
      | '\n' :: s2 =>
        (lazyFrom (fun _ => true) ("```".data) s2).map (fun br => (some lang, br.1, br.2))
      | _ => none
  else none

/-- Decimal digits of a natural number. -/
def natDigits (n : Nat) : List Char := (Nat.repr n).data

/-- The `code_block_pattern.sub(replace_code, markdown)` scan: each fenced
block is replaced by a `CODE_BLOCK_<n>` marker and `(language.strip(),
content.strip())` is stored at index `n`. -/
def sub_code_aux : Nat → List (List Char × List Char) → List Char →
    List Char × List (List Char × List Char)
  | 0, tbl, s => (s, tbl)
  | fuel + 1, tbl, s =>
    match code_fence_match s with
    | some lcr =>
      let language := lcr.1.getD ("plain text".data)
      let idx := tbl.length
      let tbl2 := tbl ++ [(pyStrip language, pyStrip lcr.2.1)]
      let out := sub_code_aux fuel tbl2 lcr.2.2
      (("CODE_BLOCK_".data ++ natDigits idx) ++ out.1, out.2)
    | none =>
      match s with
      | [] => ([], tbl)
      | c :: rest =>
        let out := sub_code_aux fuel tbl rest
        (c :: out.1, out.2)

def sub_code (s : List Char) : List Char × List (List Char × List Char) :=
  sub_code_aux (s.length + 1) [] s

/-- Match of `\$\$(.*?)\$\$` (DOTALL) at the start of `s`. -/
def latex_match (s : List Char) : Option (List Char × List Char) :=
  if ("$$".data).isPrefixOf s then lazyFrom (fun _ => true) ("$$".data) (s.drop 2)
  else none

/-- The `latex_block_pattern.sub(replace_latex, ...)` scan. -/
def sub_latex_aux : Nat → List (List Char) → List Char → List Char × List (List Char)
  | 0, tbl, s => (s, tbl)
  | fuel + 1, tbl, s =>
    match latex_match s with
    | some br =>
      let idx := tbl.length
      let tbl2 := tbl ++ [pyStrip br.1]
      let out := sub_latex_aux fuel tbl2 br.2
      (("LATEX_BLOCK_".data ++ natDigits idx) ++ out.1, out.2)
    | none =>
      match s with
      | [] => ([], tbl)
      | c :: rest =>
        let out := sub_latex_aux fuel tbl rest
        (c :: out.1, out.2)

def sub_latex (s : List Char) : List Char × List (List Char) :=
  sub_latex_aux (s.length + 1) [] s

/-! ### Line scanner (`parse_markdown_to_notion_blocks`) -/

/-- Table-row shape `\|\s*[^|]+\s*\|` under `re.match`: the line starts with
a pipe, the next character is not a pipe, and a second pipe follows. -/
def isTableRow (l : List Char) : Bool :=
  match l with
  | c1 :: c2 :: rest => c1 == '|' && !(c2 == '|') && rest.contains '|'
  | _ => false

/-- Heading regex `^(#{1,3})\s+(.*)`: one to three hashes, mandatory
whitespace, rest of the line as content. -/
def heading_match (l : List Char) : Option (Nat × List Char) :=
  let hashes := l.takeWhile (fun c => c == '#')
  if 1 ≤ hashes.length ∧ hashes.length ≤ 3 then
    let rest := l.drop hashes.length
    let sp := rest.takeWhile isPySpaceChar
    if sp.isEmpty then none else some (hashes.length, rest.drop sp.length)
  else none

/-- Horizontal-rule regex `^-{3,}$`: the whole line is three or more dashes. -/
def isHr (l : List Char) : Bool :=
  l.all (fun c => c == '-') && decide (3 ≤ l.length)

/-- The body search for `!\[(.*?)\]\((.*?)\)` after the opening `![`:
both bodies may be empty (the closing `](` cannot match at the empty rest,
so the empty case is a failure). -/
def imageBody : List Char → Option (List Char × List Char × List Char)
  | [] => none
  | c :: rest =>
    match
      (if ("](".data).isPrefixOf (c :: rest) then
        (lazyFrom pyDotChar (")".data) ((c :: rest).drop 2)).map
          (fun br => (([] : List Char), br.1, br.2))
      else none) with
    | some v => some v
    | none =>
      if pyDotChar c then (imageBody rest).map (fun v => (c :: v.1, v.2.1, v.2.2))
      else none

/-- `re.search` for the image pattern: try a full match at every position,
left to right; returns (caption, url). -/
def imageSearch : List Char → Option (List Char × List Char)
  | [] => none
  | c :: rest =>
    match
      (if ("![".data).isPrefixOf (c :: rest) then
        (imageBody rest.tail).map (fun v => (v.1, v.2.1))
      else none) with
    | some v => some v
    | none => imageSearch rest

/-- The mutable scan state of the line loop. -/
structure ScanState where
  blocks : List Block
  currentTable : List (List Char)
  inTable : Bool
  indentedCode : List (List Char)
deriving DecidableEq, Repr

def initScanState : ScanState := ⟨[], [], false, []⟩

/-- The `ValueError` that `int(...)` raises on a malformed marker index. -/
inductive ParseError where
  | valueError
deriving DecidableEq, Repr

/-- Flush the buffered table rows into one equation block. -/
def flushTable (st : ScanState) : ScanState :=
  { st with
    blocks := st.blocks ++
      [Block.equation (convert_markdown_table_to_latex (joinSep ("\n".data) st.currentTable))],
    currentTable := [], inTable := false }

/-- Flush the buffered indented-code lines into one plain-text code block. -/
def flushIndented (st : ScanState) : ScanState :=
  { st with
    blocks := st.blocks ++
      [Block.code ("plain text".data) [plainRichText (joinSep ("\n".data) st.indentedCode)]],
    indentedCode := [] }

/-- One iteration of the line loop of `parse_markdown_to_notion_blocks`,
with the checks in the source's order. -/
def processLine (cb : List (List Char × List Char)) (lb : List (List Char))
    (st : ScanState) (line : List Char) : Except ParseError ScanState :=
  if isTableRow line then
    Except.ok { st with currentTable := st.currentTable ++ [line], inTable := true }
  else
    let st1 := if st.inTable then flushTable st else st
    if ("    ".data).isPrefixOf line then
      Except.ok { st1 with indentedCode := st1.indentedCode ++ [line.drop 4] }
    else
      let st2 := if st1.indentedCode.isEmpty then st1 else flushIndented st1
      match heading_match line with
      | some lc =>
        Except.ok { st2 with
          blocks := st2.blocks ++ [Block.heading lc.1 (process_inline_formatting lc.2)] }
      | none =>
        if isHr line then
          Except.ok { st2 with blocks := st2.blocks ++ [Block.divider] }
        else if ("> ".data).isPrefixOf line then
          Except.ok { st2 with
            blocks := st2.blocks ++ [Block.quote (process_inline_formatting (line.drop 2))] }
        else if ("CODE_BLOCK_".data).isPrefixOf line then
          match pyInt (pyRemoveAll ("CODE_BLOCK_".data) line) with
          | none => Except.error ParseError.valueError
          | some idx =>
            let lc := (lookupIdx cb idx).getD (("plain text".data), [])
            Except.ok { st2 with
              blocks := st2.blocks ++ [Block.code lc.1 [plainRichText lc.2]] }
        else if ("LATEX_BLOCK_".data).isPrefixOf line then
          match pyInt (pyRemoveAll ("LATEX_BLOCK_".data) line) with
          | none => Except.error ParseError.valueError
          | some idx =>
            Except.ok { st2 with
              blocks := st2.blocks ++ [Block.equation ((lookupIdx lb idx).getD [])] }
        else
          match imageSearch line with
          | some cu =>
            let captionOpt := if cu.1.isEmpty then none else some [plainRichText cu.1]
            Except.ok { st2 with blocks := st2.blocks ++ [Block.image cu.2 captionOpt] }
          | none =>
            if (pyStrip line).isEmpty then Except.ok st2
            else
              Except.ok { st2 with
                blocks := st2.blocks ++ [Block.paragraph (process_inline_formatting line)] }

/-- The end-of-document flushes: pending table first, then pending
indented code. -/
def finalizeScan (st : ScanState) : List Block :=
  let st1 := if st.currentTable.isEmpty then st else flushTable st
  let st2 := if st1.indentedCode.isEmpty then st1 else flushIndented st1
  st2.blocks

/-- The two pre-passes followed by the line split: the extracted code and
latex tables and the lines the scanner will walk. -/
def preprocess (markdown : List Char) :
    (List (List Char × List Char)) × (List (List Char)) × List (List Char) :=
  let c := sub_code markdown
  let l := sub_latex c.1
  (c.2, l.2, splitOnChar '\n' l.1)

/-- `NotionMarkdownConverter.parse_markdown_to_notion_blocks`. -/
def parse_markdown_to_notion_blocks (markdown : List Char) : Except ParseError (List Block) :=
  let p := preprocess markdown
  (p.2.2.foldlM (processLine p.1 p.2.1) initScanState).map finalizeScan

/-- `NotionMarkdownConverter.parse_md`: strip, then parse. -/
def parse_md (markdownText : List Char) : Except ParseError (List Block) :=
  parse_markdown_to_notion_blocks (pyStrip markdownText)

/-- Module-level `convert_markdown_to_notion_blocks`. -/
def convert_markdown_to_notion_blocks (markdownText : List Char) : Except ParseError (List Block) :=
  parse_md markdownText

/-! ### Chunked publisher (`NotionArticleWriter`) -/

/-- One remote call issued by the publisher; the source issues no other
remote operation (in particular there is no delete/retract call). -/
inductive ApiCall where
  | create (title : List Char) (children : List Block)
  | append (pageId : List Char) (children : List Block)
deriving DecidableEq, Repr

/-- The three failure kinds of the publisher
(`NoBlockException`, `CreatePageException`, `AppendBlocksException`). -/
inductive WriterError where
  | noBlock
  | createPage
  | appendBlocks
deriving DecidableEq, Repr

/-- The Notion client as an oracle: the creation response (an exception or
`response.get("id")`) and the response of the i-th append call. -/
structure NotionEnv where
  createResp : Except Unit (Option (List Char))
  appendResp : Nat → Except Unit Unit

/-- `NotionArticleWriter._chunk_blocks`: windows of `size` blocks. -/
def chunkAux {α : Type} (size : Nat) : Nat → List α → List (List α)
  | 0, _ => []
  | fuel + 1, bs => if bs.isEmpty then [] else bs.take size :: chunkAux size fuel (bs.drop size)

def chunk_blocks {α : Type} (bs : List α) (size : Nat) : List (List α) :=
  chunkAux size bs.length bs

/-- The append loop of `_append_blocks`: one call per chunk, in order,
stopping (with `AppendBlocksException`) at the first failing call. -/
def appendRunAux (env : NotionEnv) (pid : List Char) :
    Nat → List (List Block) → List ApiCall × Except WriterError Bool
  | _, [] => ([], Except.ok true)
  | i, c :: cs =>
    match env.appendResp i with
    | Except.error _ => ([ApiCall.append pid c], Except.error WriterError.appendBlocks)
    | Except.ok _ =>
      let r := appendRunAux env pid (i + 1) cs
      (ApiCall.append pid c :: r.1, r.2)

/-- `NotionArticleWriter._append_blocks`. -/
def append_blocks (env : NotionEnv) (pid : List Char) (blocks : List Block) :
    List ApiCall × Except WriterError Bool :=
  appendRunAux env pid 0 (chunk_blocks blocks 100)

/-- `NotionArticleWriter._create_page`: one creation call with the first
chunk; an exception becomes `CreatePageException`, otherwise the returned
value is `response.get("id")`. -/
def create_page (env : NotionEnv) (title : List Char) (blocks : List Block) :
    List ApiCall × Except WriterError (Option (List Char)) :=
  let firstChunk := (chunk_blocks blocks 100).headD []
  ([ApiCall.create title firstChunk],
    match env.createResp with
    | Except.error _ => Except.error WriterError.createPage
    | Except.ok idOpt => Except.ok idOpt)

/-- Python truthiness of the optional page id (`if not page_id`). -/
def pyTruthyIdOpt (idOpt : Option (List Char)) : Bool :=
  match idOpt with
  | none => false
  | some s => !s.isEmpty

/-- The body of `NotionArticleWriter.write` after the Markdown conversion:
raise on no blocks, create the page, append the overflow chunks; on
success the function returns `None` (the source has no return statement),
modelled as `Except.ok none`. -/
def writeBlocks (env : NotionEnv) (title : List Char) (blocks : List Block) :
    List ApiCall × Except WriterError (Option (List Char)) :=
  if blocks.isEmpty then ([], Except.error WriterError.noBlock)
  else
    let cp := create_page env title blocks
    match cp.2 with
    | Except.error e => (cp.1, Except.error e)
    | Except.ok idOpt =>
      if !pyTruthyIdOpt idOpt then (cp.1, Except.error WriterError.createPage)
      else
        let pid := idOpt.getD []
        if decide (100 < blocks.length) then
          let ar := append_blocks env pid (blocks.drop 100)
          match ar.2 with
          | Except.error e => (cp.1 ++ ar.1, Except.error e)
          | Except.ok ok =>
            if !ok then (cp.1 ++ ar.1, Except.error WriterError.appendBlocks)
            else (cp.1 ++ ar.1, Except.ok none)
        else (cp.1, Except.ok none)

/-- An article: title and Markdown content. -/
structure Article where
  title : List Char
  content : List Char

/-- `NotionArticleWriter.write`: convert the content (a `ValueError` from
the converter propagates), then publish. -/
def write (env : NotionEnv) (article : Article) :
    List ApiCall × Except (Sum ParseError WriterError) (Option (List Char)) :=
  match convert_markdown_to_notion_blocks article.content with
  | Except.error e => ([], Except.error (Sum.inl e))
  | Except.ok blocks =>
    let r := writeBlocks env article.title blocks
    (r.1, r.2.mapError Sum.inr)


/-! ### Auxiliary definitions used by the verification statements -/

/-- An oracle environment whose creation call succeeds with id `page123`
and whose append calls all succeed. -/
def envOk : NotionEnv := ⟨Except.ok (some "page123".data), fun _ => Except.ok ()⟩

/-- An oracle environment whose creation call succeeds with id `page123`
and whose append calls all fail. -/
def envAppendFail : NotionEnv := ⟨Except.ok (some "page123".data), fun _ => Except.error ()⟩

/-- A scanned line on which the source's `int(...)` call raises: it starts
with one of the two marker prefixes but the line with all prefix
occurrences removed is not a valid Python integer literal. -/
def badMarkerLine (l : List Char) : Bool :=
  (("CODE_BLOCK_".data).isPrefixOf l &&
    (pyInt (pyRemoveAll ("CODE_BLOCK_".data) l)).isNone) ||
  (("LATEX_BLOCK_".data).isPrefixOf l &&
    (pyInt (pyRemoveAll ("LATEX_BLOCK_".data) l)).isNone)

/-- The invariant carried through the plugin folds: every already-built
span has non-empty content. -/
def partsOK (parts : List Part) : Prop :=
  ∀ t : RichText, Part.span t ∈ parts → t.content ≠ []

/-- Whether a span has non-empty content. -/
def spanOK (s : RichText) : Bool := !s.content.isEmpty

/-- The spans of a block for which the amended non-emptiness invariant is
claimed: inline-formatted spans and image caption spans (code-block text
objects are excluded — they may be empty). -/
def inlineSpans : Block → List RichText
  | Block.heading _ spans => spans
  | Block.paragraph spans => spans
  | Block.quote spans => spans
  | Block.image _ caption => caption.getD []
  | _ => []

/-- Whether a block satisfies the amended invariant. -/
def blockOK (b : Block) : Bool := (inlineSpans b).all spanOK

/-- Whether every block of a sequence satisfies the amended invariant. -/
def noEmptySpan (bs : List Block) : Bool := bs.all blockOK

/-- Every rich text span carried by a block, code-block text included. -/
def blockSpans : Block → List RichText
  | Block.heading _ spans => spans
  | Block.paragraph spans => spans
  | Block.quote spans => spans
  | Block.divider => []
  | Block.code _ rich => rich
  | Block.equation _ => []
  | Block.image _ caption => caption.getD []

end Zegion

namespace Zegion

/-! ### Helper lemmas about chunking and the append loop -/

theorem chunkAux_nil {α : Type} (size : Nat) : ∀ fuel, chunkAux size fuel ([] : List α) = [] := by
  intro fuel
  cases fuel <;> simp [chunkAux]

theorem chunkAux_cons {α : Type} (size fuel : Nat) (bs : List α) (hbs : bs ≠ []) :
    chunkAux size (fuel + 1) bs = bs.take size :: chunkAux size fuel (bs.drop size) := by
  cases bs with
  | nil => exact absurd rfl hbs
  | cons b bs' => simp [chunkAux]

theorem chunkAux_fuel_irrel {α : Type} (size : Nat) :
    ∀ (f₁ f₂ : Nat) (bs : List α), 1 ≤ size → bs.length ≤ f₁ → bs.length ≤ f₂ →
      chunkAux size f₁ bs = chunkAux size f₂ bs := by
  intro f₁
  induction f₁ with
  | zero =>
    intro f₂ bs _ h₁ _
    have : bs = [] := List.length_eq_zero.mp (Nat.le_zero.mp h₁)
    subst this
    simp [chunkAux_nil]
  | succ f ih =>
    intro f₂ bs hs h₁ h₂
    cases bs with
    | nil => simp [chunkAux_nil]
    | cons b bs' =>
      cases f₂ with
      | zero => exact absurd h₂ (by simp)
      | succ g =>
        rw [chunkAux_cons size f _ (by simp), chunkAux_cons size g _ (by simp)]
        have hd : ((b :: bs').drop size).length = (b :: bs').length - size := List.length_drop _ _
        have hlen : 1 ≤ (b :: bs').length := by simp
        have := ih g ((b :: bs').drop size) hs (by omega) (by omega)
        rw [this]

theorem chunk_blocks_nil {α : Type} (size : Nat) : chunk_blocks ([] : List α) size = [] := by
  simp [chunk_blocks, chunkAux_nil]

theorem chunk_blocks_cons {α : Type} (size : Nat) (bs : List α) (hs : 1 ≤ size) (hbs : bs ≠ []) :
    chunk_blocks bs size = bs.take size :: chunk_blocks (bs.drop size) size := by
  cases h : bs.length with
  | zero => exact absurd (List.length_eq_zero.mp h) hbs
  | succ n =>
    unfold chunk_blocks
    rw [h, chunkAux_cons size n bs hbs]
    have hd : (bs.drop size).length = bs.length - size := List.length_drop _ _
    rw [chunkAux_fuel_irrel size n (bs.drop size).length (bs.drop size) hs (by omega) (by omega)]

theorem chunkAux_flatten {α : Type} (size : Nat) (hs : 1 ≤ size) :
    ∀ (fuel : Nat) (bs : List α), bs.length ≤ fuel → (chunkAux size fuel bs).flatten = bs := by
  intro fuel
  induction fuel with
  | zero =>
    intro bs h
    have : bs = [] := List.length_eq_zero.mp (Nat.le_zero.mp h)
    subst this
    simp [chunkAux_nil]
  | succ f ih =>
    intro bs h
    cases bs with
    | nil => simp [chunkAux_nil]
    | cons b bs' =>
      rw [chunkAux_cons size f _ (by simp)]
      have hd : ((b :: bs').drop size).length = (b :: bs').length - size := List.length_drop _ _
      have hlen : 1 ≤ (b :: bs').length := by simp
      rw [List.flatten_cons, ih _ (by omega), List.take_append_drop]

theorem chunk_blocks_flatten {α : Type} (size : Nat) (hs : 1 ≤ size) (bs : List α) :
    (chunk_blocks bs size).flatten = bs :=
  chunkAux_flatten size hs bs.length bs (Nat.le_refl _)

theorem chunkAux_mem_le {α : Type} (size : Nat) (hs : 1 ≤ size) :
    ∀ (fuel : Nat) (bs : List α), ∀ c ∈ chunkAux size fuel bs, c ≠ [] ∧ c.length ≤ size := by
  intro fuel
  induction fuel with
  | zero => intro bs c hc; simp [chunkAux] at hc
  | succ f ih =>
    intro bs c hc
    cases bs with
    | nil => rw [chunkAux_nil] at hc; simp at hc
    | cons b bs' =>
      rw [chunkAux_cons size f _ (by simp)] at hc
      rcases List.mem_cons.mp hc with h | h
      · subst h
        refine ⟨?_, by simp [List.length_take]⟩
        cases size with
        | zero => omega
        | succ s => simp
      · exact ih _ c h

theorem chunk_blocks_mem_le {α : Type} (size : Nat) (hs : 1 ≤ size) (bs : List α) :
    ∀ c ∈ chunk_blocks bs size, c ≠ [] ∧ c.length ≤ size :=
  chunkAux_mem_le size hs bs.length bs

theorem appendRunAux_all_ok (env : NotionEnv) (pid : List Char)
    (hok : ∀ i, env.appendResp i = Except.ok ()) :
    ∀ (cs : List (List Block)) (i : Nat),
      appendRunAux env pid i cs = (cs.map (ApiCall.append pid), Except.ok true) := by
  intro cs
  induction cs with
  | nil => intro i; rfl
  | cons c cs ih =>
    intro i
    simp [appendRunAux, hok i, ih (i + 1)]

end Zegion

namespace Zegion

theorem chunk_blocks_ne_nil {α : Type} (size : Nat) (bs : List α) (hbs : bs ≠ []) :
    chunk_blocks bs size ≠ [] := by
  cases h : bs.length with
  | zero => exact absurd (List.length_eq_zero.mp h) hbs
  | succ n =>
    unfold chunk_blocks
    rw [h, chunkAux_cons size n bs hbs]
    simp

theorem chunkAux_getD_length {α : Type} (size : Nat) (hs : 1 ≤ size) :
    ∀ (fuel : Nat) (bs : List α) (i : Nat), bs.length ≤ fuel →
      i + 1 < (chunkAux size fuel bs).length →
      ((chunkAux size fuel bs).getD i []).length = size := by
  intro fuel
  induction fuel with
  | zero => intro bs i _ hi; simp [chunkAux] at hi
  | succ f ih =>
    intro bs i hlen hi
    cases bs with
    | nil => rw [chunkAux_nil] at hi; simp at hi
    | cons b bs' =>
      rw [chunkAux_cons size f _ (by simp)] at hi ⊢
      cases i with
      | zero =>
        rw [List.getD_cons_zero, List.length_take]
        have hne2 : chunkAux size f ((b :: bs').drop size) ≠ [] := by
          intro hnil
          rw [hnil] at hi
          simp at hi
        have : (b :: bs').drop size ≠ [] := by
          intro hnil
          rw [hnil, chunkAux_nil] at hne2
          exact hne2 rfl
        have : size < (b :: bs').length := by
          by_contra hle
          exact this (List.drop_eq_nil_iff.mpr (by omega))
        omega
      | succ j =>
        rw [List.getD_cons_succ]
        have hd : ((b :: bs').drop size).length = (b :: bs').length - size := List.length_drop _ _
        have hlen1 : 1 ≤ (b :: bs').length := by simp
        exact ih _ j (by omega) (by simpa using hi)

theorem chunk_blocks_getD_length {α : Type} (size : Nat) (hs : 1 ≤ size) (bs : List α)
    (i : Nat) (hi : i + 1 < (chunk_blocks bs size).length) :
    ((chunk_blocks bs size).getD i []).length = size :=
  chunkAux_getD_length size hs bs.length bs i (Nat.le_refl _) hi

theorem writeBlocks_success_eq (env : NotionEnv) (title : List Char) (blocks : List Block)
    (pid : List Char) (hne : blocks ≠ []) (hc : env.createResp = Except.ok (some pid))
    (hpid : pid ≠ []) (hok : ∀ i, env.appendResp i = Except.ok ()) :
    writeBlocks env title blocks =
      (ApiCall.create title (blocks.take 100) ::
        (chunk_blocks (blocks.drop 100) 100).map (ApiCall.append pid),
       Except.ok none) := by
  have hfc : (chunk_blocks blocks 100).headD [] = blocks.take 100 := by
    rw [chunk_blocks_cons 100 blocks (by norm_num) hne]
    rfl
  have htr : pyTruthyIdOpt (some pid) = true := by
    simp [pyTruthyIdOpt, hpid]
  by_cases hlen : 100 < blocks.length
  · simp only [writeBlocks, create_page, append_blocks, hc, hfc, htr, List.isEmpty_iff,
      if_neg hne, Bool.not_true, Bool.false_eq_true, if_false,
      appendRunAux_all_ok env pid hok _ 0, decide_eq_true hlen, if_true, Option.getD_some]
    rfl
  · have hdrop : blocks.drop 100 = [] := by
      rw [List.drop_eq_nil_iff]
      omega
    simp only [writeBlocks, create_page, append_blocks, hc, hfc, htr, List.isEmpty_iff,
      if_neg hne, Bool.not_true, Bool.false_eq_true, if_false, hdrop,
      chunk_blocks_nil, List.map_nil, decide_eq_false hlen, Option.getD_some]

/-- C4: for every title (and any client behaviour), `write` applied to an
empty block sequence fails with the no-content kind (`NoBlockException`)
and issues no remote call at all. -/
theorem C4_empty_blocks_no_content (env : NotionEnv) (title : List Char) :
    writeBlocks env title [] = ([], Except.error WriterError.noBlock) := rfl



/-- C1 counterexample: with a title and a non-empty block sequence for which
the creation call succeeds (returning id `page123`) and all append calls
succeed, `write` does NOT return the page identifier: the source function
ends without a return statement, so it returns `None` (`Except.ok none`),
not the identifier produced by the creation call. -/
theorem C1_counterexample :
    envOk.createResp = Except.ok (some "page123".data) ∧
    (writeBlocks envOk ("T".data) [Block.divider]).2 = Except.ok none ∧
    (writeBlocks envOk ("T".data) [Block.divider]).2 ≠ Except.ok (some ("page123".data)) := by
  refine ⟨rfl, rfl, ?_⟩
  decide

/-- C1 (amended): for every title and non-empty block sequence for which the
creation call succeeds with a usable (non-empty) identifier and all append
calls succeed, `write` completes without error but returns `None`; the page
identifier produced by the creation call is used for the append calls and
discarded, not returned. -/
theorem C1_write_returns_none (env : NotionEnv) (title : List Char) (blocks : List Block)
    (pid : List Char) (hne : blocks ≠ []) (hc : env.createResp = Except.ok (some pid))
    (hpid : pid ≠ []) (hok : ∀ i, env.appendResp i = Except.ok ()) :
    (writeBlocks env title blocks).2 = Except.ok none := by
  rw [writeBlocks_success_eq env title blocks pid hne hc hpid hok]

/-- C1 witness: the amended theorem applied at a concrete successful run. -/
theorem C1_witness :
    (writeBlocks envOk ("T".data) [Block.divider]).2 = Except.ok none :=
  C1_write_returns_none envOk ("T".data) [Block.divider] ("page123".data)
    (by decide) rfl (by decide) (fun _ => rfl)

/-- C2: blocks are split into consecutive windows of exactly 100 (the last
window may be shorter): the windows concatenate back to the block list,
every window is non-empty with at most 100 blocks, and all but the last
have exactly 100. The first window is carried by the single creation call
and each remaining window by one append call, in original order. With 150
blocks there is exactly one creation call carrying the first 100 and one
append call carrying the remaining 50, and if that append call fails,
`write` fails with `AppendBlocksException` while the creation call (and
any previously appended chunk) stands — the call trace keeps the creation
call and the publisher has no retraction operation at all. -/
theorem C2_chunking_and_call_sequence (env : NotionEnv) (title : List Char)
    (blocks : List Block) (pid : List Char)
    (hc : env.createResp = Except.ok (some pid)) (hpid : pid ≠ []) :
    ((chunk_blocks blocks 100).flatten = blocks ∧
      (∀ c ∈ chunk_blocks blocks 100, c ≠ [] ∧ c.length ≤ 100) ∧
      (∀ i, i + 1 < (chunk_blocks blocks 100).length →
        ((chunk_blocks blocks 100).getD i []).length = 100)) ∧
    (blocks ≠ [] → (∀ i, env.appendResp i = Except.ok ()) →
      (writeBlocks env title blocks).1 =
        ApiCall.create title (blocks.take 100) ::
          (chunk_blocks (blocks.drop 100) 100).map (ApiCall.append pid)) ∧
    (blocks.length = 150 → env.appendResp 0 = Except.error () →
      writeBlocks env title blocks =
        ([ApiCall.create title (blocks.take 100), ApiCall.append pid (blocks.drop 100)],
          Except.error WriterError.appendBlocks)) := by
  refine ⟨⟨chunk_blocks_flatten 100 (by norm_num) blocks,
           chunk_blocks_mem_le 100 (by norm_num) blocks, ?_⟩, ?_, ?_⟩
  · intro i hi
    exact chunk_blocks_getD_length 100 (by norm_num) blocks i hi
  · intro hne hok
    rw [writeBlocks_success_eq env title blocks pid hne hc hpid hok]
  · intro hlen h0
    have hne : blocks ≠ [] := by
      intro h
      rw [h] at hlen
      simp at hlen
    have hd50 : (blocks.drop 100).length = 50 := by
      rw [List.length_drop, hlen]
    have hdne : blocks.drop 100 ≠ [] := by
      intro h
      rw [h] at hd50
      simp at hd50
    have hchunk : chunk_blocks (blocks.drop 100) 100 = [blocks.drop 100] := by
      have ht : List.take 100 (blocks.drop 100) = blocks.drop 100 :=
        List.take_of_length_le (by omega)
      have hd2 : List.drop 100 (blocks.drop 100) = [] :=
        List.drop_eq_nil_iff.mpr (by omega)
      rw [chunk_blocks_cons 100 _ (by norm_num) hdne, ht, hd2, chunk_blocks_nil]
    have hfc : (chunk_blocks blocks 100).headD [] = blocks.take 100 := by
      rw [chunk_blocks_cons 100 blocks (by norm_num) hne]
      rfl
    have htr : pyTruthyIdOpt (some pid) = true := by
      simp [pyTruthyIdOpt, hpid]
    have happ : appendRunAux env pid 0 [blocks.drop 100] =
        ([ApiCall.append pid (blocks.drop 100)], Except.error WriterError.appendBlocks) := by
      simp [appendRunAux, h0]
    simp only [writeBlocks, create_page, append_blocks, hc, hfc, htr, List.isEmpty_iff,
      if_neg hne, Bool.not_true, Bool.false_eq_true, if_false, hchunk, happ, hlen,
      Option.getD_some, decide_eq_true (by norm_num : (100 : Nat) < 150), if_true]
    rfl

end Zegion

namespace Zegion



/-- C2 witness: the theorem applied to a concrete run of 150 blocks whose
(single) append call fails. -/
theorem C2_witness :
    writeBlocks envAppendFail ("T".data) (List.replicate 150 Block.divider) =
      ([ApiCall.create ("T".data) ((List.replicate 150 Block.divider).take 100),
        ApiCall.append ("page123".data) ((List.replicate 150 Block.divider).drop 100)],
        Except.error WriterError.appendBlocks) :=
  (C2_chunking_and_call_sequence envAppendFail ("T".data)
    (List.replicate 150 Block.divider) ("page123".data) rfl (by decide)).2.2 (by simp) rfl

/-! ### Whitespace-stripping lemmas (for the padding-invariance of `parse_md`) -/

theorem dropWhile_append_all (p : Char → Bool) (w s : List Char) (hw : w.all p = true) :
    (w ++ s).dropWhile p = s.dropWhile p := by
  induction w with
  | nil => rfl
  | cons c w ih =>
    simp only [List.all_cons, Bool.and_eq_true] at hw
    simp only [List.cons_append, List.dropWhile_cons, hw.1, if_true]
    exact ih hw.2

theorem pyStrip_sandwich (w1 s w2 : List Char)
    (h1 : w1.all isPySpaceChar = true) (h2 : w2.all isPySpaceChar = true) :
    pyStrip (w1 ++ s ++ w2) = pyStrip s := by
  unfold pyStrip
  rw [List.append_assoc, dropWhile_append_all _ w1 _ h1]
  by_cases hall : (s ++ w2).all isPySpaceChar = true
  · rw [List.dropWhile_eq_nil_iff.mpr (fun x hx => List.all_eq_true.mp hall x hx)]
    rw [List.all_append, Bool.and_eq_true] at hall
    rw [List.dropWhile_eq_nil_iff.mpr (fun x hx => List.all_eq_true.mp hall.1 x hx)]
  · rw [List.all_append, Bool.and_eq_true] at hall
    have hs : ¬ s.all isPySpaceChar = true := fun h => hall ⟨h, h2⟩
    have hne : s.dropWhile isPySpaceChar ≠ [] := by
      intro h
      exact hs (List.all_eq_true.mpr (List.dropWhile_eq_nil_iff.mp h))
    rw [List.dropWhile_append, if_neg (by simpa using hne), List.reverse_append,
      dropWhile_append_all _ w2.reverse _ (by rwa [List.all_reverse])]

/-- C10: converting `w1 ++ s ++ w2`, where `w1` and `w2` consist only of
whitespace, yields exactly the same result as converting `s`: the converter
strips leading and trailing whitespace from the whole document before
segmentation. -/
theorem C10_whitespace_padding_invariant (w1 s w2 : List Char)
    (h1 : w1.all isPySpaceChar = true) (h2 : w2.all isPySpaceChar = true) :
    convert_markdown_to_notion_blocks (w1 ++ s ++ w2) = convert_markdown_to_notion_blocks s := by
  unfold convert_markdown_to_notion_blocks parse_md
  rw [pyStrip_sandwich w1 s w2 h1 h2]

/-- C10 witness: padding `"a"` with a space and a newline. -/
theorem C10_witness :
    convert_markdown_to_notion_blocks (" ".data ++ "a".data ++ "\n".data) =
      convert_markdown_to_notion_blocks ("a".data) :=
  C10_whitespace_padding_invariant (" ".data) ("a".data) ("\n".data) (by decide) (by decide)

end Zegion

namespace Zegion

/-! ### Totality of the scanner except for malformed marker indices -/



theorem processLine_ok_of_not_bad (cb : List (List Char × List Char)) (lb : List (List Char))
    (st : ScanState) (line : List Char) (h : badMarkerLine line = false) :
    ∃ st2, processLine cb lb st line = Except.ok st2 := by
  unfold processLine
  repeat' split
  all_goals try exact ⟨_, rfl⟩
  all_goals exfalso
  all_goals simp only [badMarkerLine] at h
  all_goals simp_all

theorem foldlM_scan_ok (cb : List (List Char × List Char)) (lb : List (List Char)) :
    ∀ (lines : List (List Char)) (st : ScanState),
      (∀ l ∈ lines, badMarkerLine l = false) →
      ∃ st2, List.foldlM (processLine cb lb) st lines = Except.ok st2 := by
  intro lines
  induction lines with
  | nil => intro st _; exact ⟨st, rfl⟩
  | cons l ls ih =>
    intro st h
    obtain ⟨st1, h1⟩ := processLine_ok_of_not_bad cb lb st l (h l (by simp))
    obtain ⟨st2, h2⟩ := ih st1 (fun x hx => h x (by simp [hx]))
    refine ⟨st2, ?_⟩
    rw [List.foldlM_cons, h1]
    exact h2

/-- C3 counterexample: segmentation CAN raise. The document consisting of
the single line `CODE_BLOCK_x` reaches the marker branch, and the source's
`int(line.replace("CODE_BLOCK_", ""))` raises `ValueError` on `"x"`; the
parse does not return a block sequence. -/
theorem C3_counterexample :
    convert_markdown_to_notion_blocks ("CODE_BLOCK_x".data) =
      Except.error ParseError.valueError := by
  decide

/-- C3 (amended): for every input whose scanned lines (after the two
pre-passes and the initial strip) contain no line that starts with
`CODE_BLOCK_` or `LATEX_BLOCK_` whose remainder fails Python integer
parsing, segmentation never raises: unmatched or malformed constructs fall
through to `Paragraph` and the parse returns a block sequence. -/
theorem C3_parse_total_unless_bad_marker (md : List Char)
    (h : ∀ l ∈ (preprocess (pyStrip md)).2.2, badMarkerLine l = false) :
    ∃ bs, convert_markdown_to_notion_blocks md = Except.ok bs := by
  obtain ⟨st2, h2⟩ := foldlM_scan_ok (preprocess (pyStrip md)).1 (preprocess (pyStrip md)).2.1
    (preprocess (pyStrip md)).2.2 initScanState h
  refine ⟨finalizeScan st2, ?_⟩
  unfold convert_markdown_to_notion_blocks parse_md parse_markdown_to_notion_blocks
  simp only [h2]
  rfl

/-- C3 witness: the amended theorem applied to a small document. -/
theorem C3_witness :
    ∃ bs, convert_markdown_to_notion_blocks ("# ok".data) = Except.ok bs :=
  C3_parse_total_unless_bad_marker ("# ok".data) (by decide)

end Zegion

namespace Zegion

/-- C9: when the scanner meets a line `CODE_BLOCK_<n>` (resp.
`LATEX_BLOCK_<n>`) whose index parses as an integer but has no stored
extracted block, it emits a `Code` block with language `plain text` and
empty text (resp. an `Equation` block with empty expression) — the
`dict.get` fallback — rather than a `Paragraph` block or an error. -/
theorem C9_marker_fallback (cb : List (List Char × List Char)) (lb : List (List Char))
    (acc : List Block) :
    (∀ (r : List Char) (n : Int),
      pyInt (pyRemoveAll ("CODE_BLOCK_".data) ("CODE_BLOCK_".data ++ r)) = some n →
      lookupIdx cb n = none →
      processLine cb lb ⟨acc, [], false, []⟩ ("CODE_BLOCK_".data ++ r) =
        Except.ok ⟨acc ++ [Block.code ("plain text".data) [plainRichText []]], [], false, []⟩) ∧
    (∀ (r : List Char) (n : Int),
      pyInt (pyRemoveAll ("LATEX_BLOCK_".data) ("LATEX_BLOCK_".data ++ r)) = some n →
      lookupIdx lb n = none →
      processLine cb lb ⟨acc, [], false, []⟩ ("LATEX_BLOCK_".data ++ r) =
        Except.ok ⟨acc ++ [Block.equation []], [], false, []⟩) := by
  constructor
  · intro r n hint hlook
    have h1 : isTableRow ("CODE_BLOCK_".data ++ r) = false := rfl
    have h2 : ("    ".data).isPrefixOf ("CODE_BLOCK_".data ++ r) = false := rfl
    have h3 : heading_match ("CODE_BLOCK_".data ++ r) = none := rfl
    have h4 : isHr ("CODE_BLOCK_".data ++ r) = false := rfl
    have h5 : ("> ".data).isPrefixOf ("CODE_BLOCK_".data ++ r) = false := rfl
    have h6 : ("CODE_BLOCK_".data).isPrefixOf ("CODE_BLOCK_".data ++ r) = true := by
      rw [List.isPrefixOf_iff_prefix]
      exact List.prefix_append _ _
    simp only [processLine, h1, h2, h3, h4, h5, h6, hint, hlook, Bool.false_eq_true, if_false,
      if_true, Option.getD_none, List.isEmpty_nil]
  · intro r n hint hlook
    have h1 : isTableRow ("LATEX_BLOCK_".data ++ r) = false := rfl
    have h2 : ("    ".data).isPrefixOf ("LATEX_BLOCK_".data ++ r) = false := rfl
    have h3 : heading_match ("LATEX_BLOCK_".data ++ r) = none := rfl
    have h4 : isHr ("LATEX_BLOCK_".data ++ r) = false := rfl
    have h5 : ("> ".data).isPrefixOf ("LATEX_BLOCK_".data ++ r) = false := rfl
    have h6 : ("CODE_BLOCK_".data).isPrefixOf ("LATEX_BLOCK_".data ++ r) = false := rfl
    have h7 : ("LATEX_BLOCK_".data).isPrefixOf ("LATEX_BLOCK_".data ++ r) = true := by
      rw [List.isPrefixOf_iff_prefix]
      exact List.prefix_append _ _
    simp only [processLine, h1, h2, h3, h4, h5, h6, h7, hint, hlook, Bool.false_eq_true,
      if_false, if_true, Option.getD_none, List.isEmpty_nil]

/-- C9 witness: both marker fallbacks at the concrete unmatched index 5,
with empty extraction tables. -/
theorem C9_witness :
    processLine [] [] ⟨[], [], false, []⟩ ("CODE_BLOCK_".data ++ "5".data) =
      Except.ok ⟨[Block.code ("plain text".data) [plainRichText []]], [], false, []⟩ ∧
    processLine [] [] ⟨[], [], false, []⟩ ("LATEX_BLOCK_".data ++ "5".data) =
      Except.ok ⟨[Block.equation []], [], false, []⟩ := by
  constructor
  · exact (C9_marker_fallback [] [] []).1 ("5".data) 5 (by decide) (by decide)
  · exact (C9_marker_fallback [] [] []).2 ("5".data) 5 (by decide) (by decide)

end Zegion

namespace Zegion

/-! ### The header-divider test of the transliterator (C6) -/

theorem takeWhile_append_all (p : Char → Bool) (xs ys : List Char) (hxs : xs.all p = true) :
    (xs ++ ys).takeWhile p = xs ++ ys.takeWhile p := by
  induction xs with
  | nil => rfl
  | cons c xs ih =>
    simp only [List.all_cons, Bool.and_eq_true] at hxs
    simp only [List.cons_append, List.takeWhile_cons, hxs.1, if_true, ih hxs.2]

theorem space_not_dash (c : Char) (h : isPySpaceChar c = true) : (c == '-') = false := by
  simp only [isPySpaceChar, Bool.or_eq_true, beq_iff_eq] at h
  rcases h with ((((h | h) | h) | h) | h) | h <;> subst h <;> rfl

theorem dash_not_space (c : Char) (h : (c == '-') = true) : isPySpaceChar c = false := by
  rw [beq_iff_eq] at h
  subst h
  rfl

/-- C6 counterexample: the source's header-divider test is only a prefix
match of `\|\s*-+\s*\|`, not the claimed whole-line dashes/pipes/spaces
shape. The second line `| - | b |` is dropped by the code although it
contains the letter `b` (so it does not consist only of dashes, pipes and
spaces, and the claim would require it to be rendered as a data row):
converting the two-line table gives the same expression as converting the
first line alone. -/
theorem C6_counterexample :
    divMatch ("| - | b |".data) = true ∧
    (("| - | b |".data).all (fun c => c == '-' || c == '|' || c == ' ')) = false ∧
    convert_markdown_table_to_latex ("| a |\n| - | b |".data) =
      convert_markdown_table_to_latex ("| a |".data) := by
  refine ⟨by decide, by decide, by decide⟩

/-- C6 (amended): for a table text of at least two lines, the second line
is dropped if and only if it STARTS WITH a pipe, optional whitespace, one
or more dashes, optional whitespace and a pipe — a prefix match that
leaves anything after that second pipe unconstrained; a second line not of
that shape is kept (and rendered as a data row by the row loop). -/
theorem C6_divider_is_prefix_match (l0 l1 : List Char) (rest : List (List Char)) :
    (dropDivider (l0 :: l1 :: rest) =
      if divMatch l1 then l0 :: rest else l0 :: l1 :: rest) ∧
    (divMatch l1 = true ↔
      ∃ sp1 ds sp2 tail, l1 = '|' :: (sp1 ++ ds ++ sp2 ++ '|' :: tail) ∧
        sp1.all isPySpaceChar = true ∧ ds ≠ [] ∧ ds.all (fun c => c == '-') = true ∧
        sp2.all isPySpaceChar = true) := by
  refine ⟨rfl, ?_, ?_⟩
  · intro h
    cases l1 with
    | nil => exact absurd h (by simp [divMatch])
    | cons c rest₁ =>
      simp only [divMatch, Bool.and_eq_true, Bool.not_eq_true', beq_iff_eq] at h
      obtain ⟨hc, hdne, hmatch⟩ := h
      subst hc
      set X := rest₁.dropWhile isPySpaceChar with hX
      set A := X.takeWhile (fun d => d == '-') with hA
      set T := X.dropWhile (fun d => d == '-') with hT
      have hdsne : A ≠ [] := by
        intro hnil
        rw [hnil] at hdne
        simp at hdne
      have ht : A ++ T = X := List.takeWhile_append_dropWhile _ _
      have htt : X.drop A.length = T := by
        conv_lhs => rw [← ht]
        exact List.drop_left _ _
      rw [htt] at hmatch
      obtain ⟨tail, htail⟩ : ∃ tail, T.dropWhile isPySpaceChar = '|' :: tail := by
        split at hmatch
        next x heq => exact ⟨x, heq⟩
        next => exact absurd hmatch (by simp)
      refine ⟨rest₁.takeWhile isPySpaceChar, A, T.takeWhile isPySpaceChar, tail,
        ?_, ?_, hdsne, ?_, ?_⟩
      · have e1 : rest₁ = rest₁.takeWhile isPySpaceChar ++ X := by
          rw [hX, List.takeWhile_append_dropWhile]
        have e3 : T = T.takeWhile isPySpaceChar ++ '|' :: tail := by
          conv_lhs => rw [← List.takeWhile_append_dropWhile isPySpaceChar T]
          rw [htail]
        conv_lhs => rw [e1, ← ht]
        conv_lhs => rw [e3]
        simp [List.append_assoc]
      · exact List.all_eq_true.mpr (fun x hx => @List.mem_takeWhile_imp _ isPySpaceChar _ _ hx)
      · rw [hA]
        exact List.all_eq_true.mpr
          (fun x hx => @List.mem_takeWhile_imp _ (fun d => d == '-') _ _ hx)
      · exact List.all_eq_true.mpr (fun x hx => @List.mem_takeWhile_imp _ isPySpaceChar _ _ hx)
  · rintro ⟨sp1, ds, sp2, tail, hshape, hsp1, hdsne, hds, hsp2⟩
    subst hshape
    cases ds with
    | nil => exact absurd rfl hdsne
    | cons d0 ds' =>
      simp only [List.all_cons, Bool.and_eq_true] at hds
      have hd0 : isPySpaceChar d0 = false := dash_not_space d0 hds.1
      have hr1 : (sp1 ++ ((d0 :: ds') ++ (sp2 ++ '|' :: tail))).dropWhile isPySpaceChar =
          (d0 :: ds') ++ (sp2 ++ '|' :: tail) := by
        rw [dropWhile_append_all _ sp1 _ hsp1, List.cons_append, List.dropWhile_cons, hd0]
        simp
      have hsp2head : ((sp2 ++ '|' :: tail).takeWhile (fun d => d == '-')) = [] := by
        cases sp2 with
        | nil => rfl
        | cons c2 t2 =>
          rw [List.cons_append, List.takeWhile_cons]
          simp only [List.all_cons, Bool.and_eq_true] at hsp2
          rw [space_not_dash c2 hsp2.1]
          rfl
      have hds2 : (((d0 :: ds') ++ (sp2 ++ '|' :: tail)).takeWhile (fun d => d == '-')) =
          d0 :: ds' := by
        rw [takeWhile_append_all _ _ _ (by simp [hds.1, hds.2]), hsp2head, List.append_nil]
      have hdrop : List.drop (d0 :: ds').length ((d0 :: ds') ++ (sp2 ++ '|' :: tail)) =
          sp2 ++ '|' :: tail := List.drop_left _ _
      have hdw2 : (sp2 ++ '|' :: tail).dropWhile isPySpaceChar = '|' :: tail := by
        rw [dropWhile_append_all _ sp2 _ hsp2, List.dropWhile_cons]
        rfl
      simp only [List.append_assoc]
      simp only [divMatch, hr1, hds2, hdrop, hdw2]
      rfl

end Zegion

namespace Zegion

/-! ### Row rendering and column count of the transliterator (C8) -/

theorem lastCellCount_cons (l0 : List Char) (ls : List (List Char)) :
    lastCellCount (l0 :: ls) = (cellsOf ((l0 :: ls).getLastD [])).length := by
  induction ls generalizing l0 with
  | nil => rfl
  | cons l1 ls ih =>
    have h1 : lastCellCount (l0 :: l1 :: ls) = lastCellCount (l1 :: ls) := rfl
    have h2 : (l0 :: l1 :: ls).getLastD [] = (l1 :: ls).getLastD [] := by
      rw [List.getLastD_cons, List.getLastD_cons, List.getLastD_cons]
    rw [h1, h2]
    exact ih l1

/-- C8: each retained row's cells are joined with `" & "` and the row is
terminated by a sequence ending in backslash-backslash-`hline`-newline;
the column count of the array specifier comes from the cells of the LAST
processed row; and the concrete table with a 2-column header-divider row
and 2 data rows yields exactly one `Equation` block, with 3 retained
(`\hline`-terminated) rows of exactly 2 cells each (divider excluded). -/
theorem C8_row_format_and_columns :
    (∀ row : List Char,
      fmtRow row = joinSep (" & ".data) ((cellsOf row).map fmtCell) ++ (" \\\\\\hline\n".data) ∧
      ("\\\\hline\n".data) <:+ fmtRow row) ∧
    (∀ (l0 : List Char) (ls : List (List Char)),
      lastCellCount (l0 :: ls) = (cellsOf ((l0 :: ls).getLastD [])).length) ∧
    (parse_md ("| A | B |\n| --- | --- |\n| a1 | b1 |\n| a2 | b2 |".data) =
      Except.ok [Block.equation (convert_markdown_table_to_latex
        ("| A | B |\n| --- | --- |\n| a1 | b1 |\n| a2 | b2 |".data))] ∧
      (dropDivider (splitOnChar '\n'
        ("| A | B |\n| --- | --- |\n| a1 | b1 |\n| a2 | b2 |".data))).length = 3 ∧
      (dropDivider (splitOnChar '\n'
        ("| A | B |\n| --- | --- |\n| a1 | b1 |\n| a2 | b2 |".data))).all
          (fun r => (cellsOf r).length == 2) = true ∧
      lastCellCount (dropDivider (splitOnChar '\n'
        ("| A | B |\n| --- | --- |\n| a1 | b1 |\n| a2 | b2 |".data))) = 2) := by
  refine ⟨?_, lastCellCount_cons, by decide, by decide, by decide, by decide⟩
  intro row
  refine ⟨rfl, ⟨joinSep (" & ".data) ((cellsOf row).map fmtCell) ++ (" \\".data), ?_⟩⟩
  rw [List.append_assoc]
  rfl

end Zegion

namespace Zegion

/-! ### Non-emptiness of inline spans (C5) -/

theorem lazyPlus_some_ne_nil (p : Char → Bool) (close s : List Char) (b r : List Char)
    (h : lazyPlus p close s = some (b, r)) : b ≠ [] := by
  cases s with
  | nil => exact absurd h (by simp [lazyPlus])
  | cons c rest =>
    simp only [lazyPlus] at h
    by_cases hp : p c = true
    · rw [if_pos hp, Option.map_eq_some'] at h
      obtain ⟨a, _, hab⟩ := h
      simp only [Prod.mk.injEq] at hab
      rw [← hab.1]
      simp
    · rw [if_neg hp] at h
      exact absurd h (by simp)

theorem linkBody_fst_ne_nil : ∀ (s : List Char) (v : List Char × List Char × List Char),
    linkBody s = some v → v.1 ≠ [] := by
  intro s
  induction s with
  | nil => intro v h; exact absurd h (by simp [linkBody])
  | cons c rest ih =>
    intro v h
    simp only [linkBody] at h
    by_cases hp : pyDotChar c = true
    · rw [if_pos hp] at h
      split at h
      next v' heq =>
        cases h
        by_cases hpre : ("](".data).isPrefixOf rest = true
        · rw [if_pos hpre, Option.map_eq_some'] at heq
          obtain ⟨a, _, hab⟩ := heq
          rw [← hab]
          simp
        · rw [if_neg hpre] at heq
          exact absurd heq (by simp)
      next heq =>
        rw [Option.map_eq_some'] at h
        obtain ⟨a, _, hab⟩ := h
        rw [← hab]
        simp
    · rw [if_neg hp] at h
      exact absurd h (by simp)

theorem firstAltMatch_ne_nil : ∀ (alts : List DelimRule) (s b r : List Char),
    firstAltMatch alts s = some (b, r) → b ≠ [] := by
  intro alts
  induction alts with
  | nil => intro s b r h; exact absurd h (by simp [firstAltMatch])
  | cons rule rs ih =>
    intro s b r h
    simp only [firstAltMatch] at h
    split at h
    next v heq =>
      cases h
      simp only [delimMatch] at heq
      split at heq
      · exact lazyPlus_some_ne_nil _ _ _ _ _ heq
      · exact absurd heq (by simp)
    next heq => exact ih s b r h

theorem pluginMatch_content_ne_nil (pl : InlinePlugin) (s : List Char) (t : RichText)
    (rest : List Char) (h : pluginMatch pl s = some (t, rest)) : t.content ≠ [] := by
  cases pl with
  | generic alts ann =>
    simp only [pluginMatch, Option.map_eq_some'] at h
    obtain ⟨a, ha, hab⟩ := h
    simp only [Prod.mk.injEq] at hab
    have hc : t.content = a.1 := by rw [← hab.1]
    rw [hc]
    exact firstAltMatch_ne_nil alts s a.1 a.2 ha
  | link =>
    cases s with
    | nil => exact absurd h (by simp [pluginMatch])
    | cons c rest' =>
      simp only [pluginMatch] at h
      by_cases hc : (c == '[') = true
      · rw [if_pos hc, Option.map_eq_some'] at h
        obtain ⟨a, ha, hab⟩ := h
        simp only [Prod.mk.injEq] at hab
        have ht : t.content = a.1 := by rw [← hab.1]
        rw [ht]
        exact linkBody_fst_ne_nil rest' a ha
      · rw [if_neg hc] at h
        exact absurd h (by simp)

theorem scanFragAux_span_content (m : List Char → Option (RichText × List Char))
    (hm : ∀ s t r, m s = some (t, r) → t.content ≠ []) :
    ∀ (fuel : Nat) (gap s : List Char) (t : RichText),
      Part.span t ∈ scanFragAux m fuel gap s → t.content ≠ [] := by
  intro fuel
  induction fuel with
  | zero => intro gap s t ht; simp [scanFragAux] at ht
  | succ f ih =>
    intro gap s t ht
    simp only [scanFragAux] at ht
    split at ht
    · rename_i tr hms
      simp only [List.mem_append, List.mem_cons] at ht
      rcases ht with hin | heq | hin
      · split at hin <;> simp at hin
      · cases heq
        exact hm s tr.1 tr.2 hms
      · exact ih [] tr.2 t hin
    · rename_i hms
      cases s with
      | nil => simp at ht
      | cons c rest => exact ih (c :: gap) rest t ht



theorem replace_part_partsOK (pl : InlinePlugin) (parts : List Part) (h : partsOK parts) :
    partsOK (replace_part pl parts) := by
  intro t ht
  simp only [replace_part, List.mem_flatten, List.mem_map] at ht
  obtain ⟨l, ⟨part, hpart, hfl⟩, htl⟩ := ht
  cases part with
  | plain cs =>
    rw [← hfl] at htl
    exact scanFragAux_span_content (pluginMatch pl) (pluginMatch_content_ne_nil pl) _ [] cs t htl
  | span r =>
    rw [← hfl] at htl
    simp only [List.mem_singleton] at htl
    cases htl
    exact h t hpart

theorem foldl_plugins_partsOK :
    ∀ (ps : List InlinePlugin) (parts : List Part), partsOK parts →
      partsOK (ps.foldl (fun a p => replace_part p a) parts) := by
  intro ps
  induction ps with
  | nil => intro parts h; exact h
  | cons p ps ih =>
    intro parts h
    rw [List.foldl_cons]
    exact ih _ (replace_part_partsOK p parts h)



theorem process_inline_formatting_all_spanOK (text : List Char) :
    (process_inline_formatting text).all spanOK = true := by
  rw [List.all_eq_true]
  intro s hs
  simp only [process_inline_formatting, List.mem_filterMap] at hs
  obtain ⟨part, hpart, hsome⟩ := hs
  have hok : partsOK (inline_plugins.foldl (fun a p => replace_part p a) [Part.plain text]) := by
    apply foldl_plugins_partsOK
    intro t ht
    simp at ht
  cases part with
  | plain cs =>
    by_cases hcs : cs.isEmpty
    · simp only [hcs, if_true] at hsome
      exact absurd hsome (by simp)
    · simp only [hcs, if_false] at hsome
      cases hsome
      simp only [spanOK, Bool.not_eq_true']
      simpa using hcs
  | span r =>
    simp only at hsome
    cases hsome
    simp only [spanOK, Bool.not_eq_true']
    have := hok s hpart
    simpa using this







set_option maxHeartbeats 2000000 in
theorem processLine_noEmptySpan (cb : List (List Char × List Char)) (lb : List (List Char))
    (st st2 : ScanState) (line : List Char) (hst : noEmptySpan st.blocks = true)
    (heq : processLine cb lb st line = Except.ok st2) : noEmptySpan st2.blocks = true := by
  simp only [processLine] at heq
  repeat' split at heq
  all_goals cases heq
  all_goals
    simp_all [noEmptySpan, blockOK, inlineSpans, spanOK, flushTable, flushIndented,
      plainRichText, List.all_append, process_inline_formatting_all_spanOK]
  all_goals assumption

theorem scan_foldlM_noEmptySpan (cb : List (List Char × List Char)) (lb : List (List Char)) :
    ∀ (lines : List (List Char)) (st st2 : ScanState),
      noEmptySpan st.blocks = true →
      List.foldlM (processLine cb lb) st lines = Except.ok st2 →
      noEmptySpan st2.blocks = true := by
  intro lines
  induction lines with
  | nil =>
    intro st st2 h heq
    simp only [List.foldlM_nil] at heq
    cases heq
    exact h
  | cons l ls ih =>
    intro st st2 h heq
    rw [List.foldlM_cons] at heq
    cases h1 : processLine cb lb st l with
    | error e =>
      rw [h1] at heq
      exact Except.noConfusion (show Except.error e = Except.ok st2 from heq)
    | ok st1 =>
      rw [h1] at heq
      exact ih st1 st2 (processLine_noEmptySpan cb lb st st1 l h h1) heq

theorem noEmptySpan_flushTable (s : ScanState) (hs : noEmptySpan s.blocks = true) :
    noEmptySpan (flushTable s).blocks = true := by
  simp only [flushTable, noEmptySpan, List.all_append]
  rw [Bool.and_eq_true]
  exact ⟨hs, rfl⟩

theorem noEmptySpan_flushIndented (s : ScanState) (hs : noEmptySpan s.blocks = true) :
    noEmptySpan (flushIndented s).blocks = true := by
  simp only [flushIndented, noEmptySpan, List.all_append]
  rw [Bool.and_eq_true]
  exact ⟨hs, rfl⟩

theorem finalizeScan_noEmptySpan (st : ScanState) (h : noEmptySpan st.blocks = true) :
    noEmptySpan (finalizeScan st) = true := by
  have h2 : ∀ s : ScanState, noEmptySpan s.blocks = true →
      noEmptySpan (if s.indentedCode.isEmpty then s else flushIndented s).blocks = true := by
    intro s hs
    split
    · exact hs
    · exact noEmptySpan_flushIndented s hs
  unfold finalizeScan
  apply h2
  split
  · exact h
  · exact noEmptySpan_flushTable st h

/-- C5 (amended): every TextSpan of the final output that belongs to an
inline-formatted block (heading, paragraph, quote) or to an image caption
has non-empty content — empty residual fragments are dropped by the inline
formatter; only Code-block text objects (fenced block with empty body,
unknown marker index, empty indented buffer) may carry an empty string. -/
theorem C5_inline_spans_nonempty (md : List Char) (bs : List Block)
    (h : convert_markdown_to_notion_blocks md = Except.ok bs) : noEmptySpan bs = true := by
  unfold convert_markdown_to_notion_blocks parse_md parse_markdown_to_notion_blocks at h
  cases hf : List.foldlM (processLine (preprocess (pyStrip md)).1 (preprocess (pyStrip md)).2.1)
      initScanState (preprocess (pyStrip md)).2.2 with
  | error e =>
    simp only [hf] at h
    exact absurd h (by simp [Except.map])
  | ok st2 =>
    simp only [hf, Except.map] at h
    cases h
    exact finalizeScan_noEmptySpan st2
      (scan_foldlM_noEmptySpan _ _ _ initScanState st2 rfl hf)

/-- C5 witness: the amended theorem applied to a one-paragraph document. -/
theorem C5_witness :
    noEmptySpan [Block.paragraph [⟨"hi".data, none, some defaultAnnSet⟩]] = true :=
  C5_inline_spans_nonempty ("hi".data) _ (by decide)



/-- C5 counterexample: converting a fenced code block with empty body
yields a Code block whose single text object has EMPTY content, so the
final output does carry a span whose content is the empty string. -/
theorem C5_counterexample :
    convert_markdown_to_notion_blocks ("```\n```".data) =
      Except.ok [Block.code ("plain text".data) [plainRichText []]] ∧
    ([Block.code ("plain text".data) [plainRichText []]]).any
      (fun b => (blockSpans b).any (fun s => s.content.isEmpty)) = true := by
  refine ⟨by decide, by decide⟩

end Zegion

namespace Zegion

/-! ### Exact evaluation lemmas for the inline scan (C7) -/

theorem cons_isPrefixOf_cons (a b : Char) (as bs : List Char) :
    (a :: as).isPrefixOf (b :: bs) = (a == b && as.isPrefixOf bs) := rfl

theorem nil_isPrefixOf (l : List Char) : ([] : List Char).isPrefixOf l = true := by
  cases l <;> rfl

theorem scanFragAux_no_match (m : List Char → Option (RichText × List Char)) :
    ∀ (fuel : Nat) (gap s : List Char), s.length < fuel →
      (∀ s', s' <:+ s → m s' = none) →
      scanFragAux m fuel gap s = [Part.plain (gap.reverse ++ s)] := by
  intro fuel
  induction fuel with
  | zero => intro gap s hlen _; exact absurd hlen (Nat.not_lt_zero _)
  | succ f ih =>
    intro gap s hlen hnone
    cases s with
    | nil =>
      simp only [scanFragAux, hnone [] (List.suffix_refl _)]
      simp
    | cons c rest =>
      have hlen2 : rest.length < f := by
        simp only [List.length_cons] at hlen
        omega
      simp only [scanFragAux, hnone (c :: rest) (List.suffix_refl _)]
      rw [ih (c :: gap) rest hlen2
        (fun s' hs' => hnone s' (hs'.trans (List.suffix_cons c rest)))]
      simp

theorem scanFrag_no_match (m : List Char → Option (RichText × List Char)) (s : List Char)
    (h : ∀ s', s' <:+ s → m s' = none) : scanFrag m s = [Part.plain s] := by
  unfold scanFrag
  rw [scanFragAux_no_match m (s.length + 1) [] s (by omega) h]
  simp

theorem scanFragAux_empty (m : List Char → Option (RichText × List Char))
    (h0 : m [] = none) : ∀ fuel, scanFragAux m fuel [] [] = [Part.plain []] := by
  intro fuel
  cases fuel with
  | zero => rfl
  | succ k => simp [scanFragAux, h0]

theorem scanFrag_full_match (m : List Char → Option (RichText × List Char)) (s : List Char)
    (t : RichText) (hm : m s = some (t, [])) (h0 : m [] = none) :
    scanFrag m s = [Part.span t, Part.plain []] := by
  unfold scanFrag
  simp [scanFragAux, hm, scanFragAux_empty m h0]

theorem replace_part_singleton_plain (pl : InlinePlugin) (cs : List Char) :
    replace_part pl [Part.plain cs] = scanFrag (pluginMatch pl) cs := by
  simp [replace_part]

theorem replace_part_span_plain_nil (pl : InlinePlugin) (t : RichText)
    (h0 : pluginMatch pl [] = none) :
    replace_part pl [Part.span t, Part.plain []] = [Part.span t, Part.plain []] := by
  simp [replace_part, scanFrag, scanFragAux, h0]

theorem delimMatch_none_of_head (rule : DelimRule) (d0 : Char) (ds : List Char) (c : Char)
    (t : List Char) (hrule : rule.dopen = d0 :: ds) (hne : (d0 == c) = false) :
    delimMatch rule (c :: t) = none := by
  simp [delimMatch, hrule, cons_isPrefixOf_cons, hne]

theorem firstAltMatch_two_none (r1 r2 : DelimRule) (s : List Char)
    (h1 : delimMatch r1 s = none) (h2 : delimMatch r2 s = none) :
    firstAltMatch [r1, r2] s = none := by
  simp [firstAltMatch, h1, h2]

theorem pluginMatch_generic_none (alts : List DelimRule) (ann : AnnotationSet) (s : List Char)
    (h : firstAltMatch alts s = none) :
    pluginMatch (InlinePlugin.generic alts ann) s = none := by
  simp [pluginMatch, h]

theorem pluginMatch_generic_some (alts : List DelimRule) (ann : AnnotationSet) (s b r : List Char)
    (h : firstAltMatch alts s = some (b, r)) :
    pluginMatch (InlinePlugin.generic alts ann) s =
      some (⟨b, none, some ann⟩, r) := by
  simp [pluginMatch, h]

theorem lazyFrom_clean (d : Char) :
    ∀ xs : List Char, (∀ c ∈ xs, c ≠ d) → (∀ c ∈ xs, c ≠ '\n') →
      lazyFrom pyDotChar [d, d] (xs ++ [d, d]) = some (xs, []) := by
  intro xs
  induction xs with
  | nil =>
    intro _ _
    simp [lazyFrom, cons_isPrefixOf_cons, nil_isPrefixOf]
  | cons c xs ih =>
    intro h1 h2
    have hc1 : (d == c) = false := by
      rw [beq_eq_false_iff_ne]
      exact fun hdc => (h1 c (by simp)) hdc.symm
    have hc2 : pyDotChar c = true := by
      simp only [pyDotChar, Bool.not_eq_true']
      rw [beq_eq_false_iff_ne]
      exact h2 c (by simp)
    have hstep : lazyFrom pyDotChar [d, d] ((c :: xs) ++ [d, d]) =
        Option.map (fun br => (c :: br.1, br.2)) (lazyFrom pyDotChar [d, d] (xs ++ [d, d])) := by
      rw [List.cons_append]
      simp [lazyFrom, cons_isPrefixOf_cons, hc1, hc2]
    rw [hstep, ih (fun e he => h1 e (by simp [he])) (fun e he => h2 e (by simp [he]))]
    rfl

theorem suffix_none_clean (p : InlinePlugin) (D : List Char)
    (hD : ∀ s', s' <:+ D → pluginMatch p s' = none)
    (hhead : ∀ (c : Char) (t : List Char), c ≠ '*' → c ≠ '_' → c ≠ '\n' →
      pluginMatch p (c :: t) = none) :
    ∀ x : List Char, (∀ c ∈ x, c ≠ '*' ∧ c ≠ '_' ∧ c ≠ '\n') →
      ∀ s', s' <:+ (x ++ D) → pluginMatch p s' = none := by
  intro x
  induction x with
  | nil => intro _ s' hs'; exact hD s' (by simpa using hs')
  | cons c xs ih =>
    intro hclean s' hs'
    rw [List.cons_append, List.suffix_cons_iff] at hs'
    rcases hs' with rfl | hs'
    · obtain ⟨h1, h2, h3⟩ := hclean c (by simp)
      exact hhead c _ h1 h2 h3
    · exact ih (fun e he => hclean e (by simp [he])) s' hs'

end Zegion

namespace Zegion

theorem delimMatch_open2 (a b : Char) (cl : List Char) (s : List Char) :
    delimMatch ⟨[a, b], cl⟩ (a :: b :: s) = lazyPlus pyDotChar cl s := by
  simp [delimMatch, cons_isPrefixOf_cons, nil_isPrefixOf]

theorem delimMatch_open3_none_third (a b d : Char) (cl : List Char) (c : Char) (s : List Char)
    (h : (d == c) = false) : delimMatch ⟨[a, b, d], cl⟩ (a :: b :: c :: s) = none := by
  simp [delimMatch, cons_isPrefixOf_cons, h]

theorem delimMatch_open3_none_second (a b d : Char) (cl : List Char) (c : Char) (s : List Char)
    (h : (b == c) = false) : delimMatch ⟨[a, b, d], cl⟩ (a :: c :: s) = none := by
  simp [delimMatch, cons_isPrefixOf_cons, h]

theorem lazyPlus_clean (d : Char) (x0 : Char) (xs : List Char)
    (hdot : pyDotChar x0 = true)
    (hstar : ∀ c ∈ xs, c ≠ d) (hnl : ∀ c ∈ xs, c ≠ '\n') :
    lazyPlus pyDotChar [d, d] ((x0 :: xs) ++ [d, d]) = some (x0 :: xs, []) := by
  rw [List.cons_append]
  simp only [lazyPlus, hdot, if_true]
  rw [lazyFrom_clean d xs hstar hnl]
  rfl

theorem C7aux_star (x0 : Char) (xs : List Char)
    (hclean : ∀ c ∈ x0 :: xs, c ≠ '*' ∧ c ≠ '_' ∧ c ≠ '\n') :
    process_inline_formatting (("**".data ++ (x0 :: xs)) ++ "**".data) =
      [⟨x0 :: xs, none, some ⟨true, false, false, false, true, "default".data⟩⟩] := by
  have hx0 := hclean x0 (by simp)
  have hb1 : ('_' == x0) = false := by
    rw [beq_eq_false_iff_ne]
    exact fun h => hx0.2.1 h.symm
  have hb2 : ('*' == x0) = false := by
    rw [beq_eq_false_iff_ne]
    exact fun h => hx0.1 h.symm
  have hx0dot : pyDotChar x0 = true := by
    have hne : (x0 == '\n') = false := beq_eq_false_iff_ne.mpr hx0.2.2
    simp [pyDotChar, hne]
  have hxs_star : ∀ c ∈ xs, c ≠ '*' := fun c hc => (hclean c (by simp [hc])).1
  have hxs_nl : ∀ c ∈ xs, c ≠ '\n' := fun c hc => (hclean c (by simp [hc])).2.2
  have hline : ("**".data ++ (x0 :: xs)) ++ "**".data =
      '*' :: '*' :: ((x0 :: xs) ++ ['*', '*']) := by
    simp
  have hp1head : ∀ (c : Char) (t : List Char), c ≠ '*' → c ≠ '_' → c ≠ '\n' →
      pluginMatch (InlinePlugin.generic [⟨"__*".data, "*__".data⟩, ⟨"**_".data, "_**".data⟩]
        ⟨true, true, false, false, false, "default".data⟩) (c :: t) = none := by
    intro c t h1 h2 _
    apply pluginMatch_generic_none
    apply firstAltMatch_two_none
    · exact delimMatch_none_of_head _ '_' ("_*".data) c t rfl
        (by rw [beq_eq_false_iff_ne]; exact fun h => h2 h.symm)
    · exact delimMatch_none_of_head _ '*' ("*_".data) c t rfl
        (by rw [beq_eq_false_iff_ne]; exact fun h => h1 h.symm)
  have hp1D : ∀ s', s' <:+ (['*', '*'] : List Char) →
      pluginMatch (InlinePlugin.generic [⟨"__*".data, "*__".data⟩, ⟨"**_".data, "_**".data⟩]
        ⟨true, true, false, false, false, "default".data⟩) s' = none := by
    intro s' hs'
    rw [List.suffix_cons_iff] at hs'
    rcases hs' with rfl | hs'
    · decide
    · rw [List.suffix_cons_iff] at hs'
      rcases hs' with rfl | hs'
      · decide
      · rw [List.suffix_nil] at hs'
        subst hs'
        decide
  have hp1line : pluginMatch (InlinePlugin.generic
      [⟨"__*".data, "*__".data⟩, ⟨"**_".data, "_**".data⟩]
      ⟨true, true, false, false, false, "default".data⟩)
      ('*' :: '*' :: ((x0 :: xs) ++ ['*', '*'])) = none := by
    apply pluginMatch_generic_none
    apply firstAltMatch_two_none
    · exact delimMatch_none_of_head _ '_' ("_*".data) _ _ rfl (by decide)
    · rw [List.cons_append]
      exact delimMatch_open3_none_third '*' '*' '_' ("_**".data) x0 _ hb1
  have hp1tail : pluginMatch (InlinePlugin.generic
      [⟨"__*".data, "*__".data⟩, ⟨"**_".data, "_**".data⟩]
      ⟨true, true, false, false, false, "default".data⟩)
      ('*' :: ((x0 :: xs) ++ ['*', '*'])) = none := by
    apply pluginMatch_generic_none
    apply firstAltMatch_two_none
    · exact delimMatch_none_of_head _ '_' ("_*".data) _ _ rfl (by decide)
    · rw [List.cons_append]
      exact delimMatch_open3_none_second '*' '*' '_' ("_**".data) x0 _ hb2
  have hp1none : ∀ s', s' <:+ ('*' :: '*' :: ((x0 :: xs) ++ ['*', '*'])) →
      pluginMatch (InlinePlugin.generic [⟨"__*".data, "*__".data⟩, ⟨"**_".data, "_**".data⟩]
        ⟨true, true, false, false, false, "default".data⟩) s' = none := by
    intro s' hs'
    rw [List.suffix_cons_iff] at hs'
    rcases hs' with rfl | hs'
    · exact hp1line
    · rw [List.suffix_cons_iff] at hs'
      rcases hs' with rfl | hs'
      · exact hp1tail
      · exact suffix_none_clean _ ['*', '*'] hp1D hp1head (x0 :: xs) hclean s' hs'
  have hp2some : pluginMatch (InlinePlugin.generic
      [⟨"**".data, "**".data⟩, ⟨"__".data, "__".data⟩]
      ⟨true, false, false, false, true, "default".data⟩)
      ('*' :: '*' :: ((x0 :: xs) ++ ['*', '*'])) =
      some (⟨x0 :: xs, none, some ⟨true, false, false, false, true, "default".data⟩⟩, []) := by
    apply pluginMatch_generic_some
    have hd : delimMatch ⟨['*', '*'], ['*', '*']⟩ ('*' :: '*' :: (x0 :: (xs ++ ['*', '*']))) =
        some (x0 :: xs, []) := by
      rw [delimMatch_open2 '*' '*' (['*', '*']) (x0 :: (xs ++ ['*', '*']))]
      have hlp := lazyPlus_clean '*' x0 xs hx0dot hxs_star hxs_nl
      rw [List.cons_append] at hlp
      exact hlp
    simp [firstAltMatch, hd]
  rw [hline]
  simp only [process_inline_formatting, inline_plugins, List.foldl_cons, List.foldl_nil]
  rw [replace_part_singleton_plain, scanFrag_no_match _ _ hp1none,
    replace_part_singleton_plain,
    scanFrag_full_match _ _ _ hp2some (by decide),
    replace_part_span_plain_nil _ _ (by decide),
    replace_part_span_plain_nil _ _ (by decide),
    replace_part_span_plain_nil _ _ (by decide),
    replace_part_span_plain_nil _ _ (by decide)]
  simp [List.filterMap]

end Zegion

namespace Zegion

theorem C7aux_und (x0 : Char) (xs : List Char)
    (hclean : ∀ c ∈ x0 :: xs, c ≠ '*' ∧ c ≠ '_' ∧ c ≠ '\n') :
    process_inline_formatting (("__".data ++ (x0 :: xs)) ++ "__".data) =
      [⟨x0 :: xs, none, some ⟨true, false, false, false, true, "default".data⟩⟩] := by
  have hx0 := hclean x0 (by simp)
  have hb1 : ('_' == x0) = false := by
    rw [beq_eq_false_iff_ne]
    exact fun h => hx0.2.1 h.symm
  have hb2 : ('*' == x0) = false := by
    rw [beq_eq_false_iff_ne]
    exact fun h => hx0.1 h.symm
  have hx0dot : pyDotChar x0 = true := by
    have hne : (x0 == '\n') = false := beq_eq_false_iff_ne.mpr hx0.2.2
    simp [pyDotChar, hne]
  have hxs_und : ∀ c ∈ xs, c ≠ '_' := fun c hc => (hclean c (by simp [hc])).2.1
  have hxs_nl : ∀ c ∈ xs, c ≠ '\n' := fun c hc => (hclean c (by simp [hc])).2.2
  have hline : ("__".data ++ (x0 :: xs)) ++ "__".data =
      '_' :: '_' :: ((x0 :: xs) ++ ['_', '_']) := by
    simp
  have hp1head : ∀ (c : Char) (t : List Char), c ≠ '*' → c ≠ '_' → c ≠ '\n' →
      pluginMatch (InlinePlugin.generic [⟨"__*".data, "*__".data⟩, ⟨"**_".data, "_**".data⟩]
        ⟨true, true, false, false, false, "default".data⟩) (c :: t) = none := by
    intro c t h1 h2 _
    apply pluginMatch_generic_none
    apply firstAltMatch_two_none
    · exact delimMatch_none_of_head _ '_' ("_*".data) c t rfl
        (by rw [beq_eq_false_iff_ne]; exact fun h => h2 h.symm)
    · exact delimMatch_none_of_head _ '*' ("*_".data) c t rfl
        (by rw [beq_eq_false_iff_ne]; exact fun h => h1 h.symm)
  have hp1D : ∀ s', s' <:+ (['_', '_'] : List Char) →
      pluginMatch (InlinePlugin.generic [⟨"__*".data, "*__".data⟩, ⟨"**_".data, "_**".data⟩]
        ⟨true, true, false, false, false, "default".data⟩) s' = none := by
    intro s' hs'
    rw [List.suffix_cons_iff] at hs'
    rcases hs' with rfl | hs'
    · decide
    · rw [List.suffix_cons_iff] at hs'
      rcases hs' with rfl | hs'
      · decide
      · rw [List.suffix_nil] at hs'
        subst hs'
        decide
  have hp1line : pluginMatch (InlinePlugin.generic
      [⟨"__*".data, "*__".data⟩, ⟨"**_".data, "_**".data⟩]
      ⟨true, true, false, false, false, "default".data⟩)
      ('_' :: '_' :: ((x0 :: xs) ++ ['_', '_'])) = none := by
    apply pluginMatch_generic_none
    apply firstAltMatch_two_none
    · rw [List.cons_append]
      exact delimMatch_open3_none_third '_' '_' '*' ("*__".data) x0 _ hb2
    · exact delimMatch_none_of_head _ '*' ("*_".data) _ _ rfl (by decide)
  have hp1tail : pluginMatch (InlinePlugin.generic
      [⟨"__*".data, "*__".data⟩, ⟨"**_".data, "_**".data⟩]
      ⟨true, true, false, false, false, "default".data⟩)
      ('_' :: ((x0 :: xs) ++ ['_', '_'])) = none := by
    apply pluginMatch_generic_none
    apply firstAltMatch_two_none
    · rw [List.cons_append]
      exact delimMatch_open3_none_second '_' '_' '*' ("*__".data) x0 _ hb1
    · exact delimMatch_none_of_head _ '*' ("*_".data) _ _ rfl (by decide)
  have hp1none : ∀ s', s' <:+ ('_' :: '_' :: ((x0 :: xs) ++ ['_', '_'])) →
      pluginMatch (InlinePlugin.generic [⟨"__*".data, "*__".data⟩, ⟨"**_".data, "_**".data⟩]
        ⟨true, true, false, false, false, "default".data⟩) s' = none := by
    intro s' hs'
    rw [List.suffix_cons_iff] at hs'
    rcases hs' with rfl | hs'
    · exact hp1line
    · rw [List.suffix_cons_iff] at hs'
      rcases hs' with rfl | hs'
      · exact hp1tail
      · exact suffix_none_clean _ ['_', '_'] hp1D hp1head (x0 :: xs) hclean s' hs'
  have hp2some : pluginMatch (InlinePlugin.generic
      [⟨"**".data, "**".data⟩, ⟨"__".data, "__".data⟩]
      ⟨true, false, false, false, true, "default".data⟩)
      ('_' :: '_' :: ((x0 :: xs) ++ ['_', '_'])) =
      some (⟨x0 :: xs, none, some ⟨true, false, false, false, true, "default".data⟩⟩, []) := by
    apply pluginMatch_generic_some
    have hne1 : delimMatch ⟨['*', '*'], ['*', '*']⟩
        ('_' :: '_' :: (x0 :: (xs ++ ['_', '_']))) = none :=
      delimMatch_none_of_head _ '*' (['*']) _ _ rfl (by decide)
    have hd : delimMatch ⟨['_', '_'], ['_', '_']⟩ ('_' :: '_' :: (x0 :: (xs ++ ['_', '_']))) =
        some (x0 :: xs, []) := by
      rw [delimMatch_open2 '_' '_' (['_', '_']) (x0 :: (xs ++ ['_', '_']))]
      have hlp := lazyPlus_clean '_' x0 xs hx0dot hxs_und hxs_nl
      rw [List.cons_append] at hlp
      exact hlp
    simp [firstAltMatch, hne1, hd]
  rw [hline]
  simp only [process_inline_formatting, inline_plugins, List.foldl_cons, List.foldl_nil]
  rw [replace_part_singleton_plain, scanFrag_no_match _ _ hp1none,
    replace_part_singleton_plain,
    scanFrag_full_match _ _ _ hp2some (by decide),
    replace_part_span_plain_nil _ _ (by decide),
    replace_part_span_plain_nil _ _ (by decide),
    replace_part_span_plain_nil _ _ (by decide),
    replace_part_span_plain_nil _ _ (by decide)]
  simp [List.filterMap]

/-- C7 counterexample: a line CONTAINING `**x**` (here `**b**`, with `b`
non-empty) need not produce a bold+code span at all: on the line
`**_ **b** _**` the bold+italic rule (rule 1) consumes the whole line
first, so the only span produced is the bold+italic span `" **b** "` and
no span has `bold = true` together with `code = true`. -/
theorem C7_counterexample :
    (("**".data ++ "b".data ++ "**".data) <:+: ("**_ **b** _**".data)) ∧
    ("b".data ≠ []) ∧
    process_inline_formatting ("**_ **b** _**".data) =
      [⟨" **b** ".data, none, some ⟨true, true, false, false, false, "default".data⟩⟩] ∧
    (process_inline_formatting ("**_ **b** _**".data)).all
      (fun s => !((s.annotations.getD defaultAnnSet).bold &&
        (s.annotations.getD defaultAnnSet).code)) = true := by
  refine ⟨by decide, by decide, by decide, by decide⟩

/-- C7 (amended): for every line that is EXACTLY `**x**` or `__x__` with
`x` non-empty and free of asterisks, underscores and newlines, the inline
formatter produces exactly one TextSpan, for `x`, with `bold = true` and
`code = true` (rule 2 precedence); the plain-bold rule 3 contributes
nothing. Embedded occurrences or `x` containing formatting characters can
instead be consumed by the bold+italic rule 1 (see the counterexample). -/
theorem C7_bold_markers_give_bold_code (x : List Char) (hne : x ≠ [])
    (hclean : ∀ c ∈ x, c ≠ '*' ∧ c ≠ '_' ∧ c ≠ '\n') :
    process_inline_formatting (("**".data ++ x) ++ "**".data) =
      [⟨x, none, some ⟨true, false, false, false, true, "default".data⟩⟩] ∧
    process_inline_formatting (("__".data ++ x) ++ "__".data) =
      [⟨x, none, some ⟨true, false, false, false, true, "default".data⟩⟩] := by
  cases x with
  | nil => exact absurd rfl hne
  | cons x0 xs => exact ⟨C7aux_star x0 xs hclean, C7aux_und x0 xs hclean⟩

/-- C7 witness: the amended theorem at `x = "bold"`. -/
theorem C7_witness :
    process_inline_formatting (("**".data ++ "bold".data) ++ "**".data) =
      [⟨"bold".data, none, some ⟨true, false, false, false, true, "default".data⟩⟩] ∧
    process_inline_formatting (("__".data ++ "bold".data) ++ "__".data) =
      [⟨"bold".data, none, some ⟨true, false, false, false, true, "default".data⟩⟩] :=
  C7_bold_markers_give_bold_code ("bold".data) (by decide) (by decide)

end Zegion
